import Mathlib

/-!
Verification of the DeepInsight interview engine and wiki-generation
pipeline. The backend implementation (FastAPI, under `backend/app`) is not
part of the shipped sources; its behaviour is modelled from the
specification, as marked on each such definition. The frontend handlers
are embedded directly from the TypeScript sources.
-/

namespace DeepInsight

/-- Errors of the language-model collaborator (spec section 6):
`complete` fails with one of Timeout, RateLimited, InvalidResponse. -/
inductive ModelError
  | timeout
  | rateLimited
  | invalidResponse
deriving DecidableEq

/-- Modelled from the spec: the Follow-up Decision Engine (backend
`app/agents`, missing from the shipped sources). Given the number of
follow-up rounds already used for the current scripted question and the
model result, it returns the follow-up questions to enqueue. Engine errors
fail open to no follow-up (spec section 4.2); model output beyond the cap
of 2 rounds per scripted question is discarded, keeping the earliest
emissions in the model output order. -/
def followUpEngine (priorRounds : Nat)
    (model : Except ModelError (List String)) : List String :=
  match model with
  | .error _ => []
  | .ok fs => fs.take (2 - priorRounds)

/-- One (question, answer) pair recorded for an interview. -/
structure Turn where
  questionId : Nat
  content : String
deriving DecidableEq

/-- Modelled from the spec: the Interview State Machine state (backend
`app/services`, missing from the shipped sources). `scripted` holds the
remaining scripted question ids in ascending order index; `followUps` the
queued follow-up ids for the current scripted question; `fCount` records,
newest first, how many follow-up questions were created for each scripted
question reached so far; `fresh` supplies ids for engine-created
follow-up questions. -/
structure InterviewState where
  scripted : List Nat
  followUps : List Nat
  fCount : List (Nat × Nat)
  turns : List Turn
  answered : List Nat
  fresh : Nat
deriving DecidableEq

/-- Follow-up rounds recorded at the head of a per-question count list. -/
def headCount : List (Nat × Nat) → Nat
  | [] => 0
  | p :: _ => p.2

/-- Follow-up rounds already used for the current scripted question. -/
def currentRounds (st : InterviewState) : Nat :=
  headCount st.fCount

/-- Add `k` follow-up rounds to the current scripted question entry. -/
def bumpHead : List (Nat × Nat) → Nat → List (Nat × Nat)
  | [], _ => []
  | (q, n) :: rest, k => (q, n + k) :: rest

/-- Modelled from the spec: `nextQuestion(interviewId)` returns the next
unanswered question or the terminal signal (`none`). After a scripted
question is answered, its follow-ups are offered before any later
scripted question. -/
def nextQuestion (st : InterviewState) : Option Nat :=
  match st.followUps with
  | q :: _ => some q
  | [] =>
    match st.scripted with
    | q :: _ => some q
    | [] => none

/-- Caller protocol violation in the interview flow. -/
inductive AnswerError
  | unknownQuestion
deriving DecidableEq

/-- Modelled from the spec: `answerQuestion(interviewId, questionId,
content)`. It fails with UnknownQuestion when `questionId` is not the
currently awaited question; otherwise it appends a Turn and invokes the
Follow-up Decision Engine before returning. `model` is the model result
observed by that engine invocation. The result type has no model-error
constructor: engine failures are never surfaced to the employee. -/
def answerQuestion (st : InterviewState) (questionId : Nat) (content : String)
    (model : Except ModelError (List String)) :
    Except AnswerError InterviewState :=
  match st.followUps with
  | q :: rest =>
    if questionId = q then
      let produced := followUpEngine (currentRounds st) model
      let newIds := (List.range produced.length).map fun i => st.fresh + i
      .ok { scripted := st.scripted
            followUps := rest ++ newIds
            fCount := bumpHead st.fCount produced.length
            turns := st.turns ++ [⟨questionId, content⟩]
            answered := questionId :: st.answered
            fresh := st.fresh + produced.length }
    else .error .unknownQuestion
  | [] =>
    match st.scripted with
    | q :: qs =>
      if questionId = q then
        let produced := followUpEngine 0 model
        let newIds := (List.range produced.length).map fun i => st.fresh + i
        .ok { scripted := qs
              followUps := newIds
              fCount := (q, produced.length) :: st.fCount
              turns := st.turns ++ [⟨questionId, content⟩]
              answered := questionId :: st.answered
              fresh := st.fresh + produced.length }
      else .error .unknownQuestion
    | [] => .error .unknownQuestion

/-- One interview-flow operation: the answered question id, the answer
content, and the model result seen by the engine for that turn. -/
def InterviewOp : Type := Nat × String × Except ModelError (List String)

/-- Apply one operation; a failed `answerQuestion` leaves the state
unchanged (no Turn is recorded). -/
def runOp (st : InterviewState) (op : InterviewOp) : InterviewState :=
  match answerQuestion st op.1 op.2.1 op.2.2 with
  | .ok st2 => st2
  | .error _ => st

/-- Apply a sequence of interview-flow operations. -/
def runOps (st : InterviewState) (ops : List InterviewOp) : InterviewState :=
  ops.foldl runOp st

/-- Well-formedness of an interview state: answered questions are no
longer queued, all queued and answered ids are below the fresh-id
counter, queues hold no duplicates and do not overlap, and every recorded
follow-up count respects the cap of 2. -/
def Good (st : InterviewState) : Prop :=
  (∀ q ∈ st.answered, q ∉ st.scripted) ∧
  (∀ q ∈ st.answered, q ∉ st.followUps) ∧
  (∀ q ∈ st.scripted, q < st.fresh) ∧
  (∀ q ∈ st.followUps, q < st.fresh) ∧
  (∀ q ∈ st.answered, q < st.fresh) ∧
  st.scripted.Nodup ∧
  st.followUps.Nodup ∧
  (∀ q ∈ st.followUps, q ∉ st.scripted) ∧
  (∀ p ∈ st.fCount, p.2 ≤ 2)

theorem followUpEngine_length_le (r : Nat) (m : Except ModelError (List String)) :
    (followUpEngine r m).length ≤ 2 - r := by
  cases m with
  | error e => simp [followUpEngine]
  | ok fs =>
    simp only [followUpEngine, List.length_take]
    omega

theorem mem_freshIds {base k a : Nat}
    (h : a ∈ (List.range k).map fun i => base + i) : base ≤ a ∧ a < base + k := by
  simp only [List.mem_map, List.mem_range] at h
  obtain ⟨i, hi, rfl⟩ := h
  omega

theorem freshIds_nodup (base k : Nat) :
    ((List.range k).map fun i => base + i).Nodup := by
  refine List.Nodup.map ?_ (List.nodup_range k)
  intro a b hab
  have hab2 : base + a = base + b := hab
  omega

theorem bumpHead_le {l : List (Nat × Nat)} {k : Nat}
    (hl : ∀ p ∈ l, p.2 ≤ 2) (hk : k ≤ 2 - headCount l) :
    ∀ p ∈ bumpHead l k, p.2 ≤ 2 := by
  cases l with
  | nil => simp [bumpHead]
  | cons p r =>
    obtain ⟨q, n⟩ := p
    intro x hx
    simp only [bumpHead, List.mem_cons] at hx
    rcases hx with rfl | hx
    · have hp := hl (q, n) (by simp)
      simp only [headCount] at hk
      simp only at hp ⊢
      omega
    · exact hl x (by simp [hx])

theorem answerQuestion_ok_good {st : InterviewState} {qid : Nat} {c : String}
    {m : Except ModelError (List String)} {st2 : InterviewState}
    (hg : Good st) (hok : answerQuestion st qid c m = .ok st2) :
    Good st2 ∧ st2.answered = qid :: st.answered := by
  obtain ⟨h1, h2, h3, h4, h5, h6, h7, h8, h9⟩ := hg
  cases hf : st.followUps with
  | cons q rest =>
    by_cases hq : qid = q
    · subst hq
      simp only [answerQuestion, hf, eq_self_iff_true, if_true, Except.ok.injEq] at hok
      subst hok
      have hql : qid ∈ st.followUps := by rw [hf]; simp
      have hrest : ∀ a ∈ rest, a ∈ st.followUps := by intro a ha; rw [hf]; simp [ha]
      have hqr : qid ∉ rest := by
        have := h7
        rw [hf] at this
        exact (List.nodup_cons.mp this).1
      refine ⟨⟨?_, ?_, ?_, ?_, ?_, ?_, ?_, ?_, ?_⟩, rfl⟩ <;> dsimp only
      · intro a ha
        rcases List.mem_cons.mp ha with rfl | ha
        · exact h8 a hql
        · exact h1 a ha
      · intro a ha
        simp only [List.mem_append]
        rintro (hmem | hmem)
        · rcases List.mem_cons.mp ha with rfl | ha
          · exact hqr hmem
          · exact h2 a ha (hrest a hmem)
        · have hb := mem_freshIds hmem
          rcases List.mem_cons.mp ha with rfl | ha
          · exact absurd (h4 a hql) (by omega)
          · exact absurd (h5 a ha) (by omega)
      · intro a ha
        have := h3 a ha
        omega
      · intro a ha
        rcases List.mem_append.mp ha with hmem | hmem
        · have := h4 a (hrest a hmem)
          omega
        · exact (mem_freshIds hmem).2
      · intro a ha
        rcases List.mem_cons.mp ha with rfl | ha
        · have := h4 a hql
          omega
        · have := h5 a ha
          omega
      · exact h6
      · refine List.Nodup.append ?_ (freshIds_nodup _ _) ?_
        · have := h7
          rw [hf] at this
          exact (List.nodup_cons.mp this).2
        · intro a hmem hmem2
          have := h4 a (hrest a hmem)
          have := (mem_freshIds hmem2).1
          omega
      · intro a ha
        rcases List.mem_append.mp ha with hmem | hmem
        · exact h8 a (hrest a hmem)
        · intro hs
          have := h3 a hs
          have := (mem_freshIds hmem).1
          omega
      · exact bumpHead_le h9 (followUpEngine_length_le _ m)
    · simp only [answerQuestion, hf, if_neg hq] at hok
      exact Except.noConfusion hok
  | nil =>
    cases hs : st.scripted with
    | cons q qs =>
      by_cases hq : qid = q
      · subst hq
        simp only [answerQuestion, hf, hs, eq_self_iff_true, if_true, Except.ok.injEq] at hok
        subst hok
        have hql : qid ∈ st.scripted := by rw [hs]; simp
        have hqs : ∀ a ∈ qs, a ∈ st.scripted := by intro a ha; rw [hs]; simp [ha]
        have hqq : qid ∉ qs := by
          have := h6
          rw [hs] at this
          exact (List.nodup_cons.mp this).1
        refine ⟨⟨?_, ?_, ?_, ?_, ?_, ?_, ?_, ?_, ?_⟩, rfl⟩ <;> dsimp only
        · intro a ha
          rcases List.mem_cons.mp ha with rfl | ha
          · exact hqq
          · intro hmem
            exact h1 a ha (hqs a hmem)
        · intro a ha hmem
          have hb := mem_freshIds hmem
          rcases List.mem_cons.mp ha with rfl | ha
          · exact absurd (h3 a hql) (by omega)
          · exact absurd (h5 a ha) (by omega)
        · intro a ha
          have := h3 a (hqs a ha)
          omega
        · intro a ha
          exact (mem_freshIds ha).2
        · intro a ha
          rcases List.mem_cons.mp ha with rfl | ha
          · have := h3 a hql
            omega
          · have := h5 a ha
            omega
        · have := h6
          rw [hs] at this
          exact (List.nodup_cons.mp this).2
        · exact freshIds_nodup _ _
        · intro a ha hmem
          have := h3 a (hqs a hmem)
          have := (mem_freshIds ha).1
          omega
        · intro p hp
          rcases List.mem_cons.mp hp with rfl | hp
          · have := followUpEngine_length_le 0 m
            simp only
            omega
          · exact h9 p hp
      · simp only [answerQuestion, hf, hs, if_neg hq] at hok
        exact Except.noConfusion hok
    | nil =>
      simp only [answerQuestion, hf, hs] at hok
      exact Except.noConfusion hok

theorem runOp_good {st : InterviewState} (hg : Good st) (op : InterviewOp) :
    Good (runOp st op) ∧ st.answered ⊆ (runOp st op).answered := by
  unfold runOp
  cases h : answerQuestion st op.1 op.2.1 op.2.2 with
  | ok st2 =>
    obtain ⟨hg2, hans⟩ := answerQuestion_ok_good hg h
    refine ⟨hg2, ?_⟩
    rw [hans]
    exact List.subset_cons_self _ _
  | error e => exact ⟨hg, List.Subset.refl _⟩

theorem runOps_good {st : InterviewState} (hg : Good st) (ops : List InterviewOp) :
    Good (runOps st ops) ∧ st.answered ⊆ (runOps st ops).answered := by
  induction ops generalizing st with
  | nil => exact ⟨hg, List.Subset.refl _⟩
  | cons op rest ih =>
    obtain ⟨hg2, hsub⟩ := runOp_good hg op
    obtain ⟨hg3, hsub2⟩ := ih hg2
    exact ⟨hg3, fun a ha => hsub2 (hsub ha)⟩

theorem nextQuestion_ne_answered {st : InterviewState} (hg : Good st) {q : Nat}
    (hq : q ∈ st.answered) : nextQuestion st ≠ some q := by
  obtain ⟨h1, h2, _, _, _, _, _, _, _⟩ := hg
  unfold nextQuestion
  cases hf : st.followUps with
  | cons x rest =>
    intro hx
    have hx2 : x = q := by simpa using hx
    subst hx2
    exact h2 x hq (by rw [hf]; simp)
  | nil =>
    cases hs : st.scripted with
    | cons x rest =>
      intro hx
      have hx2 : x = q := by simpa using hx
      subst hx2
      exact h1 x hq (by rw [hs]; simp)
    | nil => simp

/-- C1: along any run of the interview flow from a well-formed state, every
scripted question reached has at most 2 follow-up rounds recorded,
regardless of the model results in the run; and the engine keeps exactly
the earliest emissions of the model output in the model emission order (a
take of the model list), so excess beyond the cap is discarded. -/
theorem c1_followup_round_cap {st : InterviewState} (hg : Good st)
    (ops : List InterviewOp) :
    (∀ p ∈ (runOps st ops).fCount, p.2 ≤ 2) ∧
    (∀ fs : List String, followUpEngine 0 (.ok fs) = fs.take 2) := by
  refine ⟨?_, fun fs => rfl⟩
  obtain ⟨_, _, _, _, _, _, _, _, h9⟩ := (runOps_good hg ops).1
  exact h9

theorem c1_followup_round_cap_witness :
    Good ⟨[0, 1], [], [], [], [], 2⟩ ∧
    ((∀ p ∈ (runOps ⟨[0, 1], [], [], [], [], 2⟩
        [(0, "a", .ok ["f1", "f2", "f3"])]).fCount, p.2 ≤ 2) ∧
     (∀ fs : List String, followUpEngine 0 (.ok fs) = fs.take 2)) :=
  ⟨by unfold Good; decide,
   c1_followup_round_cap (by unfold Good; decide)
     [(0, "a", .ok ["f1", "f2", "f3"])]⟩

/-- C5: the Follow-up Decision Engine fails open: when the awaited
question is answered, any engine error (timeout, rate limit, malformed
output) gives literally the same answerQuestion result as the engine
deciding that no follow-up is needed; in particular answerQuestion still
succeeds, so the interview is never blocked, and the result type carries
no model error to surface to the employee. -/
theorem c5_fail_open (st : InterviewState) (qid : Nat) (c : String)
    (e : ModelError) (hq : nextQuestion st = some qid) :
    answerQuestion st qid c (.error e) = answerQuestion st qid c (.ok []) ∧
    ∃ st2, answerQuestion st qid c (.error e) = .ok st2 := by
  constructor
  · cases hf : st.followUps with
    | cons q rest => simp [answerQuestion, hf, followUpEngine]
    | nil =>
      cases hs : st.scripted with
      | cons q qs => simp [answerQuestion, hf, hs, followUpEngine]
      | nil => simp [answerQuestion, hf, hs]
  · cases hf : st.followUps with
    | cons q rest =>
      have hq2 : q = qid := by simpa [nextQuestion, hf] using hq
      subst hq2
      refine ⟨⟨st.scripted, rest, bumpHead st.fCount 0,
        st.turns ++ [⟨q, c⟩], q :: st.answered, st.fresh⟩, ?_⟩
      simp [answerQuestion, hf, followUpEngine]
    | nil =>
      cases hs : st.scripted with
      | cons q qs =>
        have hq2 : q = qid := by simpa [nextQuestion, hf, hs] using hq
        subst hq2
        refine ⟨⟨qs, [], (q, 0) :: st.fCount,
          st.turns ++ [⟨q, c⟩], q :: st.answered, st.fresh⟩, ?_⟩
        simp [answerQuestion, hf, hs, followUpEngine]
      | nil => simp [nextQuestion, hf, hs] at hq

theorem c5_fail_open_witness :
    nextQuestion ⟨[0, 1], [], [], [], [], 2⟩ = some 0 ∧
    (answerQuestion ⟨[0, 1], [], [], [], [], 2⟩ 0 "a" (.error .timeout)
       = answerQuestion ⟨[0, 1], [], [], [], [], 2⟩ 0 "a" (.ok []) ∧
     ∃ st2, answerQuestion ⟨[0, 1], [], [], [], [], 2⟩ 0 "a" (.error .timeout)
       = .ok st2) :=
  ⟨by decide, c5_fail_open ⟨[0, 1], [], [], [], [], 2⟩ 0 "a" .timeout (by decide)⟩

/-- C6: an out-of-order answer, whose questionId is not the currently
awaited question, is rejected with UnknownQuestion and records nothing:
the interview state, in particular its turn list, is unchanged. -/
theorem c6_out_of_order_rejected (st : InterviewState) (q qid : Nat)
    (c : String) (m : Except ModelError (List String))
    (hq : nextQuestion st = some q) (hne : qid ≠ q) :
    answerQuestion st qid c m = .error .unknownQuestion ∧
    runOp st (qid, c, m) = st := by
  have herr : answerQuestion st qid c m = .error .unknownQuestion := by
    cases hf : st.followUps with
    | cons x rest =>
      have hx : x = q := by simpa [nextQuestion, hf] using hq
      subst hx
      simp [answerQuestion, hf, hne]
    | nil =>
      cases hs : st.scripted with
      | cons x qs =>
        have hx : x = q := by simpa [nextQuestion, hf, hs] using hq
        subst hx
        simp [answerQuestion, hf, hs, hne]
      | nil => simp [nextQuestion, hf, hs] at hq
  exact ⟨herr, by simp [runOp, herr]⟩

theorem c6_out_of_order_rejected_witness :
    nextQuestion ⟨[0, 1], [], [], [], [], 2⟩ = some 0 ∧ (1 : Nat) ≠ 0 ∧
    (answerQuestion ⟨[0, 1], [], [], [], [], 2⟩ 1 "a" (.ok [])
       = .error .unknownQuestion ∧
     runOp ⟨[0, 1], [], [], [], [], 2⟩ (1, "a", .ok [])
       = ⟨[0, 1], [], [], [], [], 2⟩) :=
  ⟨by decide, by decide,
   c6_out_of_order_rejected ⟨[0, 1], [], [], [], [], 2⟩ 0 1 "a" (.ok [])
     (by decide) (by decide)⟩

/-- C7: after a successful answerQuestion for question q from a
well-formed state, no nextQuestion call along any continuation of the run
ever returns q again: an already-answered question is never re-offered. -/
theorem c7_never_reoffer {st : InterviewState} (hg : Good st) (q : Nat)
    (c : String) (m : Except ModelError (List String)) {st2 : InterviewState}
    (hok : answerQuestion st q c m = .ok st2) (ops : List InterviewOp) :
    nextQuestion (runOps st2 ops) ≠ some q := by
  obtain ⟨hg2, hans⟩ := answerQuestion_ok_good hg hok
  obtain ⟨hg3, hsub⟩ := runOps_good hg2 ops
  refine nextQuestion_ne_answered hg3 (hsub ?_)
  rw [hans]
  simp

theorem c7_never_reoffer_witness :
    Good ⟨[0, 1], [], [], [], [], 2⟩ ∧
    answerQuestion ⟨[0, 1], [], [], [], [], 2⟩ 0 "a" (.ok [])
      = .ok ⟨[1], [], [(0, 0)], [⟨0, "a"⟩], [0], 2⟩ ∧
    nextQuestion (runOps (⟨[1], [], [(0, 0)], [⟨0, "a"⟩], [0], 2⟩ : InterviewState)
      [(1, "b", .ok [])]) ≠ some 0 :=
  ⟨by unfold Good; decide, by rfl,
   @c7_never_reoffer ⟨[0, 1], [], [], [], [], 2⟩
     (by unfold Good; decide) 0 "a" (.ok [])
     ⟨[1], [], [(0, 0)], [⟨0, "a"⟩], [0], 2⟩ (by rfl) [(1, "b", .ok [])]⟩

/-- A planned document stub: title, stable slug, evidence-turn references. -/
structure DocStub where
  title : String
  slug : String
  evidence : List Nat
deriving DecidableEq

/-- One section of a NavigationPlan: a name and its ordered document stubs. -/
structure PlanSection where
  name : String
  docs : List DocStub
deriving DecidableEq

/-- A bounded navigation plan: an ordered sequence of sections. -/
structure NavigationPlan where
  sections : List PlanSection
deriving DecidableEq

/-- Hard cap on sections per plan (spec section 4.3, src/README.md). -/
def maxSections : Nat := 5

/-- Hard cap on documents across the whole plan (spec section 4.3). -/
def maxDocuments : Nat := 10

/-- Truncate the document stubs of a section list to a total budget,
walking the sections in order and dropping the tail. -/
def capDocs : Nat → List PlanSection → List PlanSection
  | _, [] => []
  | budget, s :: rest =>
    { s with docs := s.docs.take budget } ::
      capDocs (budget - (s.docs.take budget).length) rest

/-- Modelled from the spec: the Document Planner Agent acceptance step
(backend `app/agents`, missing from the shipped sources). The model
proposal is truncated deterministically and stably to the hard caps:
the first 5 sections are kept in order, then documents are kept in order
until the total of 10 is reached; nothing is re-ranked. -/
def acceptPlan (raw : List PlanSection) : NavigationPlan :=
  ⟨capDocs maxDocuments (raw.take maxSections)⟩

/-- All document stubs of a section list, flattened in plan order. -/
def planDocs (sections : List PlanSection) : List DocStub :=
  (sections.map PlanSection.docs).flatten

theorem capDocs_length (b : Nat) (L : List PlanSection) :
    (capDocs b L).length = L.length := by
  induction L generalizing b with
  | nil => simp [capDocs]
  | cons s rest ih => simp [capDocs, ih]

theorem capDocs_names (b : Nat) (L : List PlanSection) :
    (capDocs b L).map PlanSection.name = L.map PlanSection.name := by
  induction L generalizing b with
  | nil => simp [capDocs]
  | cons s rest ih => simp [capDocs, ih]

theorem planDocs_capDocs (b : Nat) (L : List PlanSection) :
    planDocs (capDocs b L) = (planDocs L).take b := by
  induction L generalizing b with
  | nil => simp [capDocs, planDocs]
  | cons s rest ih =>
    have hlen : b - (s.docs.take b).length = b - s.docs.length := by
      simp only [List.length_take]
      omega
    simp only [capDocs, planDocs, List.map_cons, List.flatten_cons] at ih ⊢
    rw [ih, List.take_append_eq_append_take, hlen]

theorem planDocs_append (A B : List PlanSection) :
    planDocs (A ++ B) = planDocs A ++ planDocs B := by
  simp [planDocs]

/-- C2: every accepted NavigationPlan has at most 5 sections and at most
10 documents in total; truncation keeps the model ordering and drops the
tail: the accepted section names are exactly the first five proposed names
in order, and the flattened accepted documents are an initial segment of
the flattened proposed documents (never re-ranked). -/
theorem c2_plan_caps (raw : List PlanSection) :
    (acceptPlan raw).sections.length ≤ 5 ∧
    (planDocs (acceptPlan raw).sections).length ≤ 10 ∧
    (acceptPlan raw).sections.map PlanSection.name
      = (raw.take 5).map PlanSection.name ∧
    ∃ tail, planDocs raw = planDocs (acceptPlan raw).sections ++ tail := by
  refine ⟨?_, ?_, ?_, ?_⟩
  · simp only [acceptPlan, maxSections, maxDocuments, capDocs_length,
      List.length_take]
    omega
  · simp only [acceptPlan, maxSections, maxDocuments, planDocs_capDocs,
      List.length_take]
    omega
  · simp only [acceptPlan, maxSections, maxDocuments, capDocs_names]
  · refine ⟨(planDocs (raw.take 5)).drop 10 ++ planDocs (raw.drop 5), ?_⟩
    simp only [acceptPlan, maxSections, maxDocuments, planDocs_capDocs]
    rw [← List.append_assoc, List.take_append_drop,
      ← planDocs_append, List.take_append_drop]

/-- Raw Document Planner Agent model output: either it parses into the
NavigationPlan shape, or it is malformed. -/
inductive PlannerOutput
  | parsed (sections : List PlanSection)
  | malformed
deriving DecidableEq

/-- Build-level errors (spec sections 4.5 and 7). -/
inductive BuildError
  | taxonomyError
  | buildAlreadyRunning
deriving DecidableEq

/-- Modelled from the spec: the Document Planner Agent invocation wrapper
(spec section 4.3, backend code missing from the shipped sources). The
first model call uses the normal prompt; malformed output triggers
exactly one retry whose call uses the stricter prompt (the Bool strictness
flag of each call is recorded in call order); a second malformed output
fails the build attempt with TaxonomyError. -/
def runPlanner (first second : PlannerOutput) :
    Except BuildError NavigationPlan × List Bool :=
  match first with
  | .parsed s => (.ok (acceptPlan s), [false])
  | .malformed =>
    match second with
    | .parsed s => (.ok (acceptPlan s), [false, true])
    | .malformed => (.error .taxonomyError, [false, true])

/-- Terminal outcome of per-document content generation after the retry
policy of spec section 4.4 is exhausted. -/
inductive GenError
  | transientExhausted
  | nonTransient
deriving DecidableEq

/-- Per-document generation status (spec section 3). -/
inductive DocGenStatus
  | pending
  | generating
  | done
  | failed
deriving DecidableEq

/-- A generated wiki document record. -/
structure Document where
  slug : String
  title : String
  content : String
  status : DocGenStatus
deriving DecidableEq

/-- Build lifecycle status (spec section 3); partialSuccess embeds the
Partial status of a finished build with at least one failed document. -/
inductive BuildStatus
  | running
  | completed
  | partialSuccess
  | failedBuild
deriving DecidableEq

/-- The record of one wiki build. -/
structure WikiBuild where
  status : BuildStatus
  documents : List Document
  failedSlugs : List String
  buildError : Option BuildError
deriving DecidableEq

def DocGenStatus.isFailed : DocGenStatus → Bool
  | .failed => true
  | _ => false

/-- Modelled from the spec: run the Content Generation Agent once per
planned stub (spec section 4.4); `gen` gives each slug its terminal
outcome after retries, a failure marks only that Document Failed. -/
def generateDocuments (stubs : List DocStub)
    (gen : String → Except GenError String) : List Document :=
  stubs.map fun d =>
    match gen d.slug with
    | .ok c => ⟨d.slug, d.title, c, .done⟩
    | .error _ => ⟨d.slug, d.title, "", .failed⟩

/-- Modelled from the spec: the Orchestrator aggregation step (spec
section 4.5): all documents Done gives Completed; at least one Failed
gives Partial with the failed slugs listed; generated documents are
retained either way. -/
def finalizeBuild (docs : List Document) : WikiBuild :=
  let failedSlugs := (docs.filter fun d => d.status.isFailed).map Document.slug
  if failedSlugs.isEmpty then ⟨.completed, docs, [], none⟩
  else ⟨.partialSuccess, docs, failedSlugs, none⟩

/-- Modelled from the spec: one end-to-end build attempt: planner with its
single retry, then per-document generation, then aggregation; a planner
failure fails the whole build and creates no Document records. -/
def buildWikiAttempt (first second : PlannerOutput)
    (gen : String → Except GenError String) : WikiBuild :=
  match (runPlanner first second).1 with
  | .error e => ⟨.failedBuild, [], [], some e⟩
  | .ok plan => finalizeBuild (generateDocuments (planDocs plan.sections) gen)

theorem finalizeBuild_documents (docs : List Document) :
    (finalizeBuild docs).documents = docs := by
  unfold finalizeBuild
  dsimp only
  split <;> rfl

theorem finalizeBuild_all_done {docs : List Document}
    (h : docs.filter (fun d => d.status.isFailed) = []) :
    finalizeBuild docs = ⟨.completed, docs, [], none⟩ := by
  simp [finalizeBuild, h]

theorem finalizeBuild_some_failed {docs : List Document} {d : Document}
    (hd : d ∈ docs) (hf : d.status.isFailed = true) :
    (finalizeBuild docs).status = .partialSuccess ∧
    (finalizeBuild docs).buildError = none ∧
    (finalizeBuild docs).failedSlugs
      = (docs.filter fun x => x.status.isFailed).map Document.slug := by
  have hmem : d ∈ docs.filter fun x => x.status.isFailed :=
    List.mem_filter.mpr ⟨hd, hf⟩
  have hne : ((docs.filter fun x => x.status.isFailed).map
      Document.slug).isEmpty = false := by
    cases hcase : docs.filter fun x => x.status.isFailed with
    | nil =>
      rw [hcase] at hmem
      cases hmem
    | cons a l => simp [hcase]
  refine ⟨?_, ?_, ?_⟩ <;> simp [finalizeBuild, hne]

/-- C3: for a build whose planning succeeds, the build retains exactly the
generated documents; if every Document is Done the final status is
Completed; if at least one is Failed the status is Partial (with no
build-level error), every failed Document slug appears in failedSlugs,
and every Document whose generation succeeded is retained with status
Done and its generated content, not discarded. -/
theorem c3_aggregation (first second : PlannerOutput)
    (gen : String → Except GenError String) (plan : NavigationPlan)
    (hpl : (runPlanner first second).1 = .ok plan) :
    (buildWikiAttempt first second gen).documents
      = generateDocuments (planDocs plan.sections) gen ∧
    ((∀ d ∈ generateDocuments (planDocs plan.sections) gen, d.status = .done) →
      (buildWikiAttempt first second gen).status = .completed) ∧
    ((∃ d ∈ generateDocuments (planDocs plan.sections) gen, d.status = .failed) →
      (buildWikiAttempt first second gen).status = .partialSuccess ∧
      (buildWikiAttempt first second gen).buildError = none) ∧
    (∀ d ∈ generateDocuments (planDocs plan.sections) gen, d.status = .failed →
      d.slug ∈ (buildWikiAttempt first second gen).failedSlugs) ∧
    (∀ stub ∈ planDocs plan.sections, ∀ cont, gen stub.slug = .ok cont →
      Document.mk stub.slug stub.title cont .done
        ∈ (buildWikiAttempt first second gen).documents) := by
  have hb : buildWikiAttempt first second gen
      = finalizeBuild (generateDocuments (planDocs plan.sections) gen) := by
    unfold buildWikiAttempt
    rw [hpl]
  refine ⟨?_, ?_, ?_, ?_, ?_⟩
  · rw [hb, finalizeBuild_documents]
  · intro hall
    have hfil : (generateDocuments (planDocs plan.sections) gen).filter
        (fun d => d.status.isFailed) = [] := by
      rw [List.filter_eq_nil_iff]
      intro d hd
      have := hall d hd
      simp [DocGenStatus.isFailed, this]
    rw [hb, finalizeBuild_all_done hfil]
  · rintro ⟨d, hd, hfail⟩
    have h := finalizeBuild_some_failed hd (by simp [DocGenStatus.isFailed, hfail])
    rw [hb]
    exact ⟨h.1, h.2.1⟩
  · intro d hd hfail
    have h := finalizeBuild_some_failed hd (by simp [DocGenStatus.isFailed, hfail])
    rw [hb, h.2.2]
    exact List.mem_map.mpr ⟨d, List.mem_filter.mpr
      ⟨hd, by simp [DocGenStatus.isFailed, hfail]⟩, rfl⟩
  · intro stub hstub cont hgen
    rw [hb, finalizeBuild_documents]
    refine List.mem_map.mpr ⟨stub, hstub, ?_⟩
    simp [hgen]

theorem c3_aggregation_witness :
    (runPlanner (.parsed [⟨"Operations", [⟨"Doc A", "a", []⟩, ⟨"Doc B", "b", []⟩]⟩])
        .malformed).1
      = .ok ⟨[⟨"Operations", [⟨"Doc A", "a", []⟩, ⟨"Doc B", "b", []⟩]⟩]⟩ ∧
    ((buildWikiAttempt (.parsed [⟨"Operations", [⟨"Doc A", "a", []⟩, ⟨"Doc B", "b", []⟩]⟩])
        .malformed
        (fun s => if s = "a" then .ok "ok-a" else .error .nonTransient)).status
      = .partialSuccess) :=
  ⟨by rfl,
   ((c3_aggregation
      (.parsed [⟨"Operations", [⟨"Doc A", "a", []⟩, ⟨"Doc B", "b", []⟩]⟩])
      .malformed
      (fun s => if s = "a" then .ok "ok-a" else .error .nonTransient)
      ⟨[⟨"Operations", [⟨"Doc A", "a", []⟩, ⟨"Doc B", "b", []⟩]⟩]⟩
      (by rfl)).2.2.1)
     ⟨⟨"b", "Doc B", "", .failed⟩, by decide, by decide⟩ |>.1⟩

/-- C4: a malformed first planner output triggers exactly one retry, whose
model call uses the stricter prompt (the call log is exactly the normal
call followed by the strict call); when the retry is malformed too, the
whole build attempt is Failed carrying TaxonomyError and no Document
records are created. -/
theorem c4_planner_retry (second : PlannerOutput)
    (gen : String → Except GenError String) :
    (runPlanner .malformed second).2 = [false, true] ∧
    buildWikiAttempt .malformed .malformed gen
      = ⟨.failedBuild, [], [], some .taxonomyError⟩ := by
  constructor
  · cases second <;> rfl
  · rfl

/-- Modelled from the spec: the per-business build lease (spec sections
4.5 and 9, backend code missing from the shipped sources). Acquisition is
an atomic check-and-set on the shared lease store: it fails with
BuildAlreadyRunning when a lease for the business is already held. -/
def acquireLease (held : List Nat) (businessId : Nat) :
    Except BuildError (List Nat) :=
  if businessId ∈ held then .error .buildAlreadyRunning
  else .ok (businessId :: held)

/-- Release the per-business lease (on any build finish). -/
def releaseLease (held : List Nat) (businessId : Nat) : List Nat :=
  held.filter fun b => b ≠ businessId

/-- C8: when two buildWiki requests for the same business overlap, the
lease store serializes their acquisitions: the first acquisition succeeds
and, while that lease is held, the second fails with BuildAlreadyRunning —
exactly one of the two overlapping requests proceeds, and afterwards the
release makes the business buildable again (never permanently locked). -/
theorem c8_build_lease (held : List Nat) (b : Nat) (hb : b ∉ held) :
    ∃ held2, acquireLease held b = .ok held2 ∧
      acquireLease held2 b = .error .buildAlreadyRunning ∧
      b ∉ releaseLease held2 b := by
  refine ⟨b :: held, ?_, ?_, ?_⟩
  · simp [acquireLease, hb]
  · simp [acquireLease]
  · simp [releaseLease]

theorem c8_build_lease_witness :
    (7 : Nat) ∉ ([] : List Nat) ∧
    ∃ held2, acquireLease [] 7 = .ok held2 ∧
      acquireLease held2 7 = .error .buildAlreadyRunning ∧
      7 ∉ releaseLease held2 7 :=
  ⟨by decide, c8_build_lease [] 7 (by decide)⟩

/-- The JS `String.prototype.trim()` used by the interview UI: drop
whitespace characters from both ends of the string. -/
def jsTrim (s : String) : String :=
  ⟨((s.data.dropWhile Char.isWhitespace).reverse.dropWhile
      Char.isWhitespace).reverse⟩

/-- Embedding of PromptInput.handleSubmit
(frontend PromptInput.tsx, lines 32-38): the form submit handler returns
early, not invoking onSubmit, when the trimmed value is empty
(JS `if (!value.trim()) return;`); the result is whether onSubmit fires. -/
def promptInputSubmits (value : String) : Bool :=
  !(jsTrim value == "")

/-- The question object of a NextQuestionResponse (frontend api.ts). -/
structure ApiQuestion where
  id : String
  content : String
  isFollowUp : Bool
deriving DecidableEq

/-- The body of an answerQuestion API request (frontend api.ts). -/
structure AnswerRequest where
  interviewId : String
  questionId : String
  content : String
deriving DecidableEq

/-- Embedding of handleSubmitAnswer (frontend interview page, lines
118-154 of the PromptInput.tsx module): returns the request passed to
api.procedures.answerQuestion, or none when the guard
`if (!answer.trim() || !currentQuestion?.question) return;` exits early;
the content sent is `answer.trim()`. -/
def handleSubmitAnswer (interviewId : String) (answer : String)
    (currentQuestion : Option ApiQuestion) : Option AnswerRequest :=
  if jsTrim answer = "" then none
  else
    match currentQuestion with
    | none => none
    | some q => some ⟨interviewId, q.id, jsTrim answer⟩

/-- C9: every answerQuestion request issued by the interview UI carries
content equal to the trimmed answer text and that content is non-empty;
the prompt form submit handler likewise fires exactly when the trimmed
answer is non-empty, so empty or whitespace-only submissions never reach
the API. -/
theorem c9_trimmed_nonempty (iid answer : String) (q : Option ApiQuestion)
    (req : AnswerRequest) (h : handleSubmitAnswer iid answer q = some req) :
    req.content = jsTrim answer ∧ req.content ≠ "" ∧
    (promptInputSubmits answer = true ↔ jsTrim answer ≠ "") := by
  unfold handleSubmitAnswer at h
  by_cases he : jsTrim answer = ""
  · rw [if_pos he] at h
    exact Option.noConfusion h
  · rw [if_neg he] at h
    cases q with
    | none => exact Option.noConfusion h
    | some qq =>
      injection h with h
      subst h
      refine ⟨rfl, he, ?_⟩
      simp [promptInputSubmits]

theorem c9_trimmed_nonempty_witness :
    handleSubmitAnswer "i1" "  hello " (some ⟨"q1", "What?", false⟩)
      = some ⟨"i1", "q1", "hello"⟩ ∧
    ((AnswerRequest.mk "i1" "q1" "hello").content = jsTrim "  hello " ∧
     (AnswerRequest.mk "i1" "q1" "hello").content ≠ "" ∧
     (promptInputSubmits "  hello " = true ↔ jsTrim "  hello " ≠ "")) :=
  ⟨by decide,
   c9_trimmed_nonempty "i1" "  hello " (some ⟨"q1", "What?", false⟩)
     ⟨"i1", "q1", "hello"⟩ (by decide)⟩

/-- One loaded interview of the interviews page (src/unnamed/part_001):
identification plus its question/response pairs. -/
structure InterviewDetail where
  interviewId : String
  questionsAndResponses : List (String × String)
deriving DecidableEq

/-- The body of a buildWiki API request. -/
structure BuildWikiRequest where
  businessId : String
deriving DecidableEq

/-- Embedding of the Build Wiki button state of the interviews page
(src/unnamed/part_001, lines 157-164):
`disabled={buildingWiki || interviews.length === 0}`. -/
def buildWikiButtonDisabled (buildingWiki : Bool)
    (interviews : List InterviewDetail) : Bool :=
  buildingWiki || interviews.length == 0

/-- Embedding of a click on the Build Wiki button: the DOM dispatches
onClick (handleBuildWiki, src/unnamed/part_001 lines 92-114, which issues
the buildWiki request for the loaded business) only when the button is
not disabled. -/
def clickBuildWiki (businessId : String) (buildingWiki : Bool)
    (interviews : List InterviewDetail) : Option BuildWikiRequest :=
  if buildWikiButtonDisabled buildingWiki interviews then none
  else some ⟨businessId⟩

/-- C10: the interviews page never issues a buildWiki request while the
loaded interview list is empty or a build is already in flight: whenever
a click issues a request, the list is non-empty, no build is in flight,
and the request targets the loaded business. -/
theorem c10_build_button_guard (businessId : String) (buildingWiki : Bool)
    (interviews : List InterviewDetail) (req : BuildWikiRequest)
    (h : clickBuildWiki businessId buildingWiki interviews = some req) :
    interviews ≠ [] ∧ buildingWiki = false ∧ req.businessId = businessId := by
  unfold clickBuildWiki at h
  by_cases hd : buildWikiButtonDisabled buildingWiki interviews = true
  · rw [if_pos hd] at h
    exact Option.noConfusion h
  · rw [if_neg hd] at h
    injection h with h
    subst h
    simp only [buildWikiButtonDisabled, Bool.or_eq_true, beq_iff_eq,
      not_or] at hd
    obtain ⟨hb, hl⟩ := hd
    refine ⟨?_, ?_, rfl⟩
    · intro h0
      exact hl (by simp [h0])
    · simpa using hb

theorem c10_build_button_guard_witness :
    clickBuildWiki "b1" false [⟨"i1", [("q", "r")]⟩] = some ⟨"b1"⟩ ∧
    (([⟨"i1", [("q", "r")]⟩] : List InterviewDetail) ≠ [] ∧
     false = false ∧
     (BuildWikiRequest.mk "b1").businessId = "b1") :=
  ⟨by decide,
   c10_build_button_guard "b1" false [⟨"i1", [("q", "r")]⟩] ⟨"b1"⟩ (by decide)⟩

end DeepInsight
